import Mathlib

/-!
Verification development for the hope_remote_log service.

The source is a Node.js application.  We embed its core numerically:
a JavaScript `Date` is represented by its epoch value in milliseconds
(an `Int`), and the ECMA-262 proleptic-Gregorian calendar arithmetic
(`Date.UTC`, the `getUTC*`/local `get*` accessors, `toISOString`) is
embedded with explicit floor division.  The server's local timezone is
a fixed parameter `tz` (milliseconds east of UTC); `now` is the wall
clock at which a request is handled.
-/

namespace HopeLog

/-! ## Calendar arithmetic of the JavaScript Date object -/

/-- Days since 1970-01-01 of a civil proleptic-Gregorian date.
Month is 1..12; the day argument may lie outside its nominal range,
matching the linear renormalisation `Date.UTC` applies to overflowing
day counts. -/
def daysFromCivil (y m d : Int) : Int :=
  let y2 := y - (if m ≤ 2 then 1 else 0)
  let era := y2.fdiv 400
  let yoe := y2 - era * 400
  let mp := (m + 9).emod 12
  let doy := (153 * mp + 2).fdiv 5 + d - 1
  let doe := yoe * 365 + yoe.fdiv 4 - yoe.fdiv 100 + doy
  era * 146097 + doe - 719468

/-- Civil date (year, month 1..12, day 1..31) of a count of days since
1970-01-01. -/
def civilFromDays (z0 : Int) : Int × Int × Int :=
  let z := z0 + 719468
  let era := z.fdiv 146097
  let doe := z - era * 146097
  let yoe := (doe - doe.fdiv 1460 + doe.fdiv 36524 - doe.fdiv 146096).fdiv 365
  let y := yoe + era * 400
  let doy := doe - (365 * yoe + yoe.fdiv 4 - yoe.fdiv 100)
  let mp := (5 * doy + 2).fdiv 153
  let d := doy - (153 * mp + 2).fdiv 5 + 1
  let m := mp + (if mp < 10 then 3 else -9)
  (y + (if m ≤ 2 then 1 else 0), m, d)

/-- Left-pad a string with zeros to length `k` (the JavaScript
`padStart(k, "0")`). -/
def padZeros (k : Nat) (s : String) : String :=
  ⟨List.replicate (k - s.length) '0' ++ s.data⟩

def pad2 (n : Int) : String := padZeros 2 (toString n)

def pad3 (n : Int) : String := padZeros 3 (toString n)

/-- Year field of `Date.prototype.toISOString`: four digits inside
0..9999, otherwise the expanded sign + six digit form. -/
def isoYearStr (y : Int) : String :=
  if 0 ≤ y ∧ y ≤ 9999 then padZeros 4 (toString y)
  else (if y < 0 then "-" else "+") ++ padZeros 6 (toString y.natAbs)

/-- `Date.prototype.toISOString` on an epoch-millisecond value. -/
def isoString (t : Int) : String :=
  let days := t.fdiv 86400000
  let rem := t.emod 86400000
  let c := civilFromDays days
  isoYearStr c.1 ++ "-" ++ pad2 c.2.1 ++ "-" ++ pad2 c.2.2 ++ "T" ++
    pad2 (rem.fdiv 3600000) ++ ":" ++ pad2 ((rem.fdiv 60000).emod 60) ++ ":" ++
    pad2 ((rem.fdiv 1000).emod 60) ++ "." ++ pad3 (rem.emod 1000) ++ "Z"

/-- Civil date of instant `t` in the server's local timezone `tz`
(the `getFullYear`/`getMonth`/`getDate` accessors). -/
def localCivil (tz t : Int) : Int × Int × Int :=
  civilFromDays ((t + tz).fdiv 86400000)

/-- The `getHours` accessor in local timezone `tz`. -/
def localHour (tz t : Int) : Int :=
  ((t + tz).emod 86400000).fdiv 3600000

/-- The `getFullYear` accessor in local timezone `tz` (used for
"assume the log entry's year is the current year"). -/
def localYear (tz t : Int) : Int := (localCivil tz t).1

/-- `Date.UTC(year, monthIndex, day, hh, mm, ss)` (epoch milliseconds),
including the ECMA-262 rule mapping years 0..99 to 1900..1999.
`monthIndex` is 0-based as in JavaScript. -/
def dateUTC (year : Int) (monthIndex day hh mm ss : Nat) : Int :=
  let y := if 0 ≤ year ∧ year ≤ 99 then year + 1900 else year
  ((((daysFromCivil y ((monthIndex : Int) + 1) (day : Int)) * 24 + (hh : Int)) * 60 +
      (mm : Int)) * 60 + (ss : Int)) * 1000

/-- Millisecond field of an instant (`getUTCMilliseconds`, also the
`.SSS` field of `toISOString`). -/
def msField (t : Int) : Int := t.emod 1000

/-! ## JavaScript string primitives used by the source -/

/-- `pre` is a prefix of `s` viewed as character lists. -/
def charListIsPrefix : List Char → List Char → Bool
  | [], _ => true
  | _ :: _, [] => false
  | a :: as, b :: bs => a == b && charListIsPrefix as bs

/-- `String.prototype.startsWith`. -/
def jsStartsWith (s pre : String) : Bool := charListIsPrefix pre.data s.data

/-- `String.prototype.endsWith`. -/
def jsEndsWith (s suf : String) : Bool :=
  charListIsPrefix suf.data.reverse s.data.reverse

/-- Code-unit lexicographic comparison (the JavaScript `<` on strings). -/
def charListLt : List Char → List Char → Bool
  | [], [] => false
  | [], _ :: _ => true
  | _ :: _, [] => false
  | a :: as, b :: bs => if a < b then true else if b < a then false else charListLt as bs

def jsStrLt (s t : String) : Bool := charListLt s.data t.data

/-- `String.prototype.substring(0, n)` (ASCII content, so code units
coincide with characters). -/
def jsSubstring0 (n : Nat) (s : String) : String := ⟨s.data.take n⟩

/-! ## The timestamp regular expressions

`getTimestampFromLog` matches
  `/^([A-Za-z]{3})\s+(\d{1,2})\s+(\d{2}:\d{2}:\d{2})/`
and the legacy `parseAndEnhanceTimestamp` matches
  `/^(\w{3}\s+\d{1,2}\s+\d{2}:\d{2}:\d{2})/`.
Both are embedded by `matchWith`, parameterised by the character class of
the three leading characters.  `\d{1,2}` is greedy with backtracking:
two digits are tried first and one digit on failure of the continuation;
no other backtracking is possible because the space, digit and letter
classes are pairwise disjoint.  The captured day and `HH:MM:SS` numbers
are returned already converted (the source converts them with
`parseInt`/`Number` immediately after matching). -/

/-- The JavaScript `\s` character class. -/
def isJsSpace (c : Char) : Bool :=
  c.toNat == 32 || c.toNat == 9 || c.toNat == 10 || c.toNat == 13 ||
  c.toNat == 11 || c.toNat == 12 || c.toNat == 0xa0 || c.toNat == 0x1680 ||
  (0x2000 ≤ c.toNat && c.toNat ≤ 0x200a) || c.toNat == 0x2028 ||
  c.toNat == 0x2029 || c.toNat == 0x202f || c.toNat == 0x205f ||
  c.toNat == 0x3000 || c.toNat == 0xfeff

/-- The regex class `[A-Za-z]`. -/
def isAsciiLetter (c : Char) : Bool :=
  (65 ≤ c.toNat && c.toNat ≤ 90) || (97 ≤ c.toNat && c.toNat ≤ 122)

/-- The regex class `\d`, that is `[0-9]`. -/
def isDigitJs (c : Char) : Bool := 48 ≤ c.toNat && c.toNat ≤ 57

/-- The JavaScript `\w` character class, `[A-Za-z0-9_]`. -/
def isWordChar (c : Char) : Bool := isAsciiLetter c || isDigitJs c || c == '_'

def digitVal (c : Char) : Nat := c.toNat - 48

/-- `\d{2}:\d{2}:\d{2}` at the head of the list; returns the three
numbers. -/
def time8 : List Char → Option (Nat × Nat × Nat)
  | h1 :: h2 :: c1 :: m1 :: m2 :: c2 :: s1 :: s2 :: _ =>
    if isDigitJs h1 && isDigitJs h2 && c1 == ':' && isDigitJs m1 && isDigitJs m2 &&
        c2 == ':' && isDigitJs s1 && isDigitJs s2 then
      some (digitVal h1 * 10 + digitVal h2, digitVal m1 * 10 + digitVal m2,
        digitVal s1 * 10 + digitVal s2)
    else none
  | _ => none

/-- `\s+` then `\d{2}:\d{2}:\d{2}`. -/
def spacesThenTime (cs : List Char) : Option (Nat × Nat × Nat) :=
  if (cs.takeWhile isJsSpace).isEmpty then none
  else time8 (cs.dropWhile isJsSpace)

/-- The greedy two-digit attempt for `\d{1,2}`: a second digit followed
by `\s+\d{2}:\d{2}:\d{2}`. -/
def twoDigitDay (d1 : Char) : List Char → Option (Nat × (Nat × Nat × Nat))
  | d2 :: r3 =>
    if isDigitJs d2 then
      (spacesThenTime r3).map (fun t => (digitVal d1 * 10 + digitVal d2, t))
    else none
  | [] => none

/-- `\d{1,2}\s+\d{2}:\d{2}:\d{2}`: one digit required, then the greedy
two-digit attempt, backtracking to the one-digit reading when the
continuation after two digits fails. -/
def dayTime : List Char → Option (Nat × (Nat × Nat × Nat))
  | d1 :: r2 =>
    if isDigitJs d1 then
      (twoDigitDay d1 r2).orElse
        (fun _ => (spacesThenTime r2).map (fun t => (digitVal d1, t)))
    else none
  | [] => none

/-- Anchored match of `cls{3}\s+\d{1,2}\s+\d{2}:\d{2}:\d{2}`; returns
(month capture, day, (hours, minutes, seconds)). -/
def matchWith (cls : Char → Bool) : List Char → Option (String × Nat × (Nat × Nat × Nat))
  | m1 :: m2 :: m3 :: r0 =>
    if cls m1 && cls m2 && cls m3 then
      if (r0.takeWhile isJsSpace).isEmpty then none
      else (dayTime (r0.dropWhile isJsSpace)).map (fun r => (⟨[m1, m2, m3]⟩, r))
    else none
  | _ => none

/-- The month-abbreviation table of `getTimestampFromLog`
(case-sensitive property lookup on the `months` object). -/
def monthLookup (s : String) : Option Nat :=
  if s = "Jan" then some 0 else if s = "Feb" then some 1
  else if s = "Mar" then some 2 else if s = "Apr" then some 3
  else if s = "May" then some 4 else if s = "Jun" then some 5
  else if s = "Jul" then some 6 else if s = "Aug" then some 7
  else if s = "Sep" then some 8 else if s = "Oct" then some 9
  else if s = "Nov" then some 10 else if s = "Dec" then some 11
  else none

/-! ## LogProcessor: getTimestampFromLog -/

/-- `LogProcessor.getTimestampFromLog(logLine, secondIndex)`.
Steps of the source: regex match; month table lookup (null on miss);
year := current local year; `Date.UTC` with the parsed fields;
`setUTCHours(getUTCHours() - 7)` which subtracts exactly 7 hours;
`setUTCMilliseconds(secondIndex)` which replaces the millisecond
component, carrying `secondIndex / 1000` into the seconds.  Returns the
epoch value of the instant the source renders with `toISOString`. -/
def getTimestampFromLog (tz now : Int) (logLine : String) (secondIndex : Nat) : Option Int :=
  match matchWith isAsciiLetter logLine.data with
  | none => none
  | some (monthStr, day, hh, mm, ss) =>
    match monthLookup monthStr with
    | none => none
    | some monthIndex =>
      let year := localYear tz now
      let t0 := dateUTC year monthIndex day hh mm ss
      let t1 := t0 - 7 * 3600000
      some (t1 - t1.emod 1000 + (secondIndex : Int))

/-! ## Second-key counter map (JavaScript Map with get-or-0 / set) -/

abbrev KeyMap := List (String × Nat)

/-- `map.get(k) || 0`. -/
def mapGetD : KeyMap → String → Nat
  | [], _ => 0
  | (k1, v) :: rest, k => if k1 = k then v else mapGetD rest k

/-- `map.set(k, v)` (update in place, append if absent). -/
def mapSet : KeyMap → String → Nat → KeyMap
  | [], k, v => [(k, v)]
  | (k1, v1) :: rest, k, v =>
    if k1 = k then (k1, v) :: rest else (k1, v1) :: mapSet rest k v

/-! ## LogProcessor: line-by-line batch processing -/

structure LogEntry where
  device_id : String
  log_timestamp : Int
  message : String
deriving DecidableEq

/-- Result of processing one line: the constructed entry together with
the sequence hint that was used (`none` when the line failed to parse
and the current wall-clock time was substituted). -/
structure LineOut where
  entry : LogEntry
  hint : Option Nat
deriving DecidableEq

/-- The per-second key of a line: the base timestamp (sequence hint 0)
truncated to seconds, `baseTimestamp.substring(0, 19) + "Z"`. -/
def lineSecondKey (tz now : Int) (line : String) : Option String :=
  (getTimestampFromLog tz now line 0).map
    (fun b => jsSubstring0 19 (isoString b) ++ "Z")

/-- The loop body of `processLogContentLineByLine` for one line:
look up the base timestamp, read and bump the per-second counter, and
build the entry, falling back to the current time on parse failure. -/
def procLine (tz now : Int) (dev line : String) (M : KeyMap) : LineOut × KeyMap :=
  match getTimestampFromLog tz now line 0 with
  | none => (⟨⟨dev, now, line⟩, none⟩, M)
  | some base =>
    let secondKey := jsSubstring0 19 (isoString base) ++ "Z"
    let c := mapGetD M secondKey
    let M1 := mapSet M secondKey (c + 1)
    (⟨⟨dev, (getTimestampFromLog tz now line c).getD now, line⟩, some c⟩, M1)

/-- The full loop of `processLogContentLineByLine` over the split lines,
threading the batch-scoped `secondCounters` map. -/
def procLines (tz now : Int) (dev : String) : List String → KeyMap → List LineOut
  | [], _ => []
  | line :: rest, M =>
    let r := procLine tz now dev line M
    r.1 :: procLines tz now dev rest r.2

/-- One submission processed together: `secondCounters` starts empty. -/
def processLines (tz now : Int) (dev : String) (lines : List String) : List LineOut :=
  procLines tz now dev lines []

/-- `String.prototype.split` with a single-character separator. -/
def splitOnChar (sep : Char) : List Char → List (List Char)
  | [] => [[]]
  | c :: rest =>
    let r := splitOnChar sep rest
    if c = sep then [] :: r
    else
      match r with
      | [] => [[c]]
      | g :: gs => (c :: g) :: gs

/-- `logContent.split("\n").filter(line => line.length > 0)`. -/
def logLines (content : String) : List String :=
  ((splitOnChar '\n' content.data).map String.mk).filter
    (fun l => decide (0 < l.length))

/-- Bucket filename of an entry, `getHourKey(new Date(log_timestamp)) + ".log"`
(the `getHourKey` accessors are local-time accessors). -/
def getHourKey (tz t : Int) : String :=
  let c := localCivil tz t
  toString c.1 ++ "-" ++ pad2 c.2.1 ++ "-" ++ pad2 c.2.2 ++ "-" ++ pad2 (localHour tz t)

def entryFilename (tz : Int) (e : LogEntry) : String :=
  getHourKey tz e.log_timestamp ++ ".log"

/-- `fileEntries` grouping: push the entry onto the list stored under its
filename, creating the binding on first use (JavaScript Map insertion
order). -/
def groupAppend : List (String × List LogEntry) → String → LogEntry → List (String × List LogEntry)
  | [], k, e => [(k, [e])]
  | (k1, es) :: rest, k, e =>
    if k1 = k then (k1, es ++ [e]) :: rest else (k1, es) :: groupAppend rest k e

def groupByFile (tz : Int) (es : List LogEntry) : List (String × List LogEntry) :=
  es.foldl (fun m e => groupAppend m (entryFilename tz e) e) []

/-- Entries produced by one submission, in input-line order. -/
def processedEntries (tz now : Int) (dev content : String) : List LogEntry :=
  (processLines tz now dev (logLines content)).map LineOut.entry

/-- The per-file grouping produced by one submission. -/
def fileEntriesOf (tz now : Int) (dev content : String) : List (String × List LogEntry) :=
  groupByFile tz (processedEntries tz now dev content)

structure ProcessResult where
  success : Bool
  linesProcessed : Nat
  filesWritten : Nat
deriving DecidableEq

/-- `LogProcessor.processLogContentLineByLine(deviceId, logContent)`:
split into non-empty lines, process them with a fresh batch counter map,
group by bucket filename, and report the counts. -/
def processLogContentLineByLine (tz now : Int) (dev content : String) : ProcessResult :=
  let lines := logLines content
  if lines.length = 0 then ⟨false, 0, 0⟩
  else ⟨true, lines.length, (fileEntriesOf tz now dev content).length⟩

/-! ## LogProcessor: legacy single-line path -/

/-- `formatTimestampKey`: `toISOString().substring(0, 19)`. -/
def formatTimestampKey (t : Int) : String := jsSubstring0 19 (isoString t)

/-- `cleanOldCounters`: delete every key lexicographically below the key
of one hour ago. -/
def cleanOldCounters (now : Int) (M : KeyMap) : KeyMap :=
  M.filter (fun kv => !jsStrLt kv.1 (formatTimestampKey (now - 60 * 60 * 1000)))

def isLeapYear (y : Int) : Bool :=
  (y.emod 4 == 0 && y.emod 100 != 0) || y.emod 400 == 0

def daysInMonth (y : Int) (mi : Nat) : Nat :=
  if mi = 1 then (if isLeapYear y then 29 else 28)
  else if mi = 3 ∨ mi = 5 ∨ mi = 8 ∨ mi = 10 then 30
  else 31

/-- Capitalisation-normalising month lookup: the engine's Date-string
parser recognises month names case-insensitively. -/
def monthLookupCI (s : String) : Option Nat :=
  match s.data with
  | [] => none
  | c :: rest => monthLookup ⟨c.toUpper :: rest.map Char.toLower⟩

/-- Modelled engine behaviour of `new Date("MMM DD HH:MM:SS YYYY")`:
month matched case-insensitively against the twelve abbreviations, the
field values checked against their calendar ranges, and the result
interpreted as local time (hence `- tz` to reach UTC).  Returns `none`
for an Invalid Date (the source then throws). -/
def jsDateParseLocal (tz year : Int) (mon : String) (day hh mm ss : Nat) : Option Int :=
  match monthLookupCI mon with
  | none => none
  | some mi =>
    if 1 ≤ day ∧ day ≤ daysInMonth year mi ∧ hh ≤ 23 ∧ mm ≤ 59 ∧ ss ≤ 59 then
      some (dateUTC year mi day hh mm ss - tz)
    else none

structure LegacyOut where
  baseTimestamp : Int
  enhancedTimestamp : Int
  hourKey : String
  counter : Nat
  counters : KeyMap
deriving DecidableEq

/-- `LogProcessor.parseAndEnhanceTimestamp(logMessage)` acting on the
process-lifetime counter map.  `none` models the two thrown errors
(regex miss, invalid date).  Note the counter is the post-increment
value `get(secondKey) || 0 + 1`, and `cleanOldCounters` runs after the
counter is stored. -/
def parseAndEnhanceTimestamp (tz now : Int) (logMessage : String) (M : KeyMap) :
    Option LegacyOut :=
  match matchWith isWordChar logMessage.data with
  | none => none
  | some (mon, day, hh, mm, ss) =>
    match jsDateParseLocal tz (localYear tz now) mon day hh mm ss with
    | none => none
    | some base =>
      let secondKey := formatTimestampKey base
      let counter := mapGetD M secondKey + 1
      let M1 := mapSet M secondKey counter
      let M2 := cleanOldCounters now M1
      some ⟨base, base + counter, getHourKey tz base, counter, M2⟩

/-- The second-key a legacy call files its counter under. -/
def legacyKey (tz now : Int) (msg : String) : Option String :=
  match matchWith isWordChar msg.data with
  | none => none
  | some (mon, day, hh, mm, ss) =>
    (jsDateParseLocal tz (localYear tz now) mon day hh mm ss).map formatTimestampKey

/-- One legacy call as a state transition, reporting the counter used. -/
def parseStep (tz : Int) (msg : String) (now : Int) (M : KeyMap) : Option Nat × KeyMap :=
  match parseAndEnhanceTimestamp tz now msg M with
  | none => (none, M)
  | some r => (some r.counter, r.counters)

/-- A sequence of legacy calls `(message, wall-clock)`, collecting the
counters assigned. -/
def legacyFold (tz : Int) : List (String × Int) → KeyMap → List (Option Nat)
  | [], _ => []
  | (msg, now) :: rest, M =>
    let r := parseStep tz msg now M
    r.1 :: legacyFold tz rest r.2

/-! ## Ingestion-rate tracking -/

/-- `trackRequest`: push the call instant, then retain only instants
strictly newer than five minutes before it. -/
def trackRequest (recent : List Int) (now : Int) : List Int :=
  (recent ++ [now]).filter (fun t => decide (now - 5 * 60 * 1000 < t))

/-- `getIngestionRate`: `(recentRequests.length / 5).toFixed(1)` parsed
back to a number.  `length / 5` always has exactly one decimal digit, so
the fixed-point rounding is exact and the value is the rational
`length / 5`. -/
def getIngestionRate (recent : List Int) : ℚ := (recent.length : ℚ) / 5

/-! ## BatchProcessor -/

def maxRetries : Nat := 3

structure FailureMeta where
  failed_at : Int
  error_message : String
  retry_attempts : Nat
deriving DecidableEq

/-- The filesystem and cycle state the batch processor acts on.
Directory contents are the listed filenames; `metas` are the sidecar
records in the failed area. -/
structure SysState where
  isProcessing : Bool
  incoming : List String
  processing : List String
  failed : List String
  metas : List (String × FailureMeta)
deriving DecidableEq

/-- `uploadToS3` retry recursion.  `oracle n` tells whether the attempt
with `retryCount = n` succeeds.  Returns (number of attempts performed,
success); an unsuccessful return models the final throw. -/
def uploadToS3 (oracle : Nat → Bool) (retryCount : Nat) : Nat × Bool :=
  if oracle retryCount then (retryCount + 1, true)
  else if h : retryCount < maxRetries then uploadToS3 oracle (retryCount + 1)
  else (retryCount + 1, false)
termination_by maxRetries - retryCount
decreasing_by omega

/-- The current-hour key computed at the top of `sweepCompletedFiles`
from `new Date()` local accessors. -/
def sweepCurrentHourKey (tz now : Int) : String :=
  let c := localCivil tz now
  toString c.1 ++ "-" ++ pad2 c.2.1 ++ "-" ++ pad2 c.2.2 ++ "-" ++ pad2 (localHour tz now)

/-- `sweepCompletedFiles`: select the `.log` files of the incoming area
not starting with the current hour key, and move each to processing
(`moveOk` tells which moves succeed; failed moves are logged and the
file is left in incoming).  Returns the swept names and the new state. -/
def sweepCompletedFiles (tz now : Int) (moveOk : String → Bool) (s : SysState) :
    List String × SysState :=
  let key := sweepCurrentHourKey tz now
  let selected := s.incoming.filter (fun f => jsEndsWith f ".log" && !jsStartsWith f key)
  let swept := selected.filter moveOk
  (swept,
    { s with
      incoming := s.incoming.filter (fun f => !swept.contains f)
      processing := s.processing ++ swept })

/-- `processFile`: compress (creating `name.gz` in the processing area),
upload with retries, delete both artifacts on success, delete only the
compressed artifact on failure before rethrowing. -/
def processFile (oracle : Nat → Bool) (s : SysState) (fname : String) : SysState × Bool :=
  let s1 : SysState := { s with processing := s.processing ++ [fname ++ ".gz"] }
  if (uploadToS3 oracle 0).2 then
    ({ s1 with processing := (s1.processing.erase fname).erase (fname ++ ".gz") }, true)
  else
    ({ s1 with processing := s1.processing.erase (fname ++ ".gz") }, false)

/-- `handleFailedFile`: move the original from processing to the failed
area and write the `<name>.meta` sidecar with `retry_attempts`
`config.processing.maxRetries`. -/
def handleFailedFile (now : Int) (fname err : String) (s : SysState) : SysState :=
  { s with
    processing := s.processing.erase fname
    failed := s.failed ++ [fname]
    metas := s.metas ++ [(fname ++ ".meta", ⟨now, err, maxRetries⟩)] }

/-- The per-file step of `run`: process the file, quarantining it on
failure.  Returns the new state and whether the file succeeded. -/
def handleOneFile (oracle : Nat → Bool) (now : Int) (err : String) (s : SysState)
    (fname : String) : SysState × Bool :=
  let r := processFile oracle s fname
  if r.2 then (r.1, true) else (handleFailedFile now fname err r.1, false)

/-- `BatchProcessor.run`: the re-entrancy guard, the running/final
RunStatus transitions (returned as the list of statuses written, in
order), the sweep, and the per-file loop. -/
def runCycle (oracle : Nat → Bool) (moveOk : String → Bool) (tz now : Int) (err : String)
    (s : SysState) : SysState × List String :=
  if s.isProcessing then (s, [])
  else
    let s0 : SysState := { s with isProcessing := true }
    let r1 := sweepCompletedFiles tz now moveOk s0
    let r2 := r1.1.foldl
      (fun (acc : SysState × Bool) f =>
        let r := handleOneFile oracle now err acc.1 f
        (r.1, acc.2 || !r.2))
      (r1.2, false)
    ({ r2.1 with isProcessing := false },
      ["running", if r2.2 then "failed" else "success"])

/-! ## Helper lemmas: counter maps -/

/-- Default element used with `List.getD` on processed lines. -/
def dummyOut : LineOut := ⟨⟨"", 0, ""⟩, none⟩

theorem mapGetD_set_self (M : KeyMap) (k : String) (v : Nat) :
    mapGetD (mapSet M k v) k = v := by
  induction M with
  | nil => simp [mapSet, mapGetD]
  | cons kv rest ih =>
    obtain ⟨k1, v1⟩ := kv
    by_cases h : k1 = k
    · simp [mapSet, mapGetD, h]
    · simp [mapSet, mapGetD, h, ih]

theorem mapGetD_set_ne (M : KeyMap) (k1 k : String) (v : Nat) (h : k1 ≠ k) :
    mapGetD (mapSet M k1 v) k = mapGetD M k := by
  induction M with
  | nil => simp [mapSet, mapGetD, h]
  | cons kv rest ih =>
    obtain ⟨k2, v2⟩ := kv
    by_cases h2 : k2 = k1
    · subst h2
      simp [mapSet, mapGetD, h, Ne.symm h]
    · by_cases h3 : k2 = k
      · simp [mapSet, mapGetD, h2, h3, Ne.symm h]
      · simp [mapSet, mapGetD, h2, h3, ih]

/-- `Int.emod` is the `%` of the integers (spelling bridge). -/
theorem emod_eq_mod (a b : Int) : a.emod b = a % b := rfl

/-! ## Helper lemmas: the timestamp parser -/

/-- A successful parse at sequence hint 0 determines the parse at every
hint: the base instant is shifted by the hint in milliseconds, and the
base instant is a whole second. -/
theorem getTimestampFromLog_base (tz now : Int) (line : String) (b : Int)
    (h : getTimestampFromLog tz now line 0 = some b) (c : Nat) :
    getTimestampFromLog tz now line c = some (b + c) ∧ b % 1000 = 0 := by
  cases hm : matchWith isAsciiLetter line.data with
  | none => simp [getTimestampFromLog, hm] at h
  | some r =>
    obtain ⟨mon, day, hh, mm, ss⟩ := r
    cases hl : monthLookup mon with
    | none => simp [getTimestampFromLog, hm, hl] at h
    | some mi =>
      simp only [getTimestampFromLog, hm, hl, Option.some_inj, emod_eq_mod] at h ⊢
      refine ⟨?_, ?_⟩ <;> omega

/-! ## Helper lemmas: the batch sequencing loop -/

theorem procLines_length (tz now : Int) (dev : String) (lines : List String) (M : KeyMap) :
    (procLines tz now dev lines M).length = lines.length := by
  induction lines generalizing M with
  | nil => rfl
  | cons l rest ih => simpa [procLines] using ih _

/-- Number of lines filed under second-key `k`. -/
def countKeyIn (tz now : Int) (k : String) (lines : List String) : Nat :=
  lines.countP (fun l => decide (lineSecondKey tz now l = some k))

theorem procLine_parsed (tz now : Int) (dev line : String) (M : KeyMap) (k : String)
    (hk : lineSecondKey tz now line = some k) :
    procLine tz now dev line M =
      (⟨⟨dev, (getTimestampFromLog tz now line (mapGetD M k)).getD now, line⟩,
        some (mapGetD M k)⟩, mapSet M k (mapGetD M k + 1)) := by
  cases hb : getTimestampFromLog tz now line 0 with
  | none => simp [lineSecondKey, hb] at hk
  | some b =>
    have hk2 : jsSubstring0 19 (isoString b) ++ "Z" = k := by
      simpa [lineSecondKey, hb] using hk
    simp only [procLine, hb, hk2]

theorem procLine_failed (tz now : Int) (dev line : String) (M : KeyMap)
    (hk : lineSecondKey tz now line = none) :
    procLine tz now dev line M = (⟨⟨dev, now, line⟩, none⟩, M) := by
  cases hb : getTimestampFromLog tz now line 0 with
  | none => simp only [procLine, hb]
  | some b => simp [lineSecondKey, hb] at hk

/-- Position `i` of the processed batch, when line `i` fails to parse:
the entry carries the wall-clock time and no sequence hint. -/
theorem procLines_getD_failed (tz now : Int) (dev : String) (lines : List String) :
    ∀ (M : KeyMap) (i : Nat), i < lines.length →
      lineSecondKey tz now (lines.getD i "") = none →
      (procLines tz now dev lines M).getD i dummyOut =
        ⟨⟨dev, now, lines.getD i ""⟩, none⟩ := by
  induction lines with
  | nil => intro M i hi _; simp at hi
  | cons l rest ih =>
    intro M i hi hk
    cases i with
    | zero =>
      rw [List.getD_cons_zero] at hk
      simp only [procLines, List.getD_cons_zero]
      rw [procLine_failed tz now dev l M hk]
    | succ i =>
      rw [List.getD_cons_succ] at hk
      simp only [procLines, List.getD_cons_succ]
      exact ih _ i (by simpa using Nat.lt_of_succ_lt_succ hi) hk

/-- Position `i` of the processed batch, when line `i` parses with
second-key `k`: the sequence hint is the stored counter plus the number
of earlier lines of the batch with the same second-key, and the entry
carries the base timestamp shifted by that hint. -/
theorem procLines_getD_parsed (tz now : Int) (dev k : String) (lines : List String) :
    ∀ (M : KeyMap) (i : Nat), i < lines.length →
      lineSecondKey tz now (lines.getD i "") = some k →
      (procLines tz now dev lines M).getD i dummyOut =
        ⟨⟨dev, (getTimestampFromLog tz now (lines.getD i "")
            (mapGetD M k + countKeyIn tz now k (lines.take i))).getD now, lines.getD i ""⟩,
          some (mapGetD M k + countKeyIn tz now k (lines.take i))⟩ := by
  induction lines with
  | nil => intro M i hi _; simp at hi
  | cons l rest ih =>
    intro M i hi hk
    cases i with
    | zero =>
      rw [List.getD_cons_zero] at hk
      simp only [procLines, List.getD_cons_zero, List.take_zero]
      rw [procLine_parsed tz now dev l M k hk]
      simp [countKeyIn]
    | succ i =>
      rw [List.getD_cons_succ] at hk
      simp only [procLines, List.getD_cons_succ]
      rw [ih (procLine tz now dev l M).2 i (by simpa using Nat.lt_of_succ_lt_succ hi) hk]
      have hcount : mapGetD (procLine tz now dev l M).2 k +
          countKeyIn tz now k (rest.take i) =
          mapGetD M k + countKeyIn tz now k ((l :: rest).take (i + 1)) := by
        rw [List.take_succ_cons]
        cases hb : getTimestampFromLog tz now l 0 with
        | none =>
          have hkl : lineSecondKey tz now l = none := by simp [lineSecondKey, hb]
          rw [procLine_failed tz now dev l M hkl]
          simp [countKeyIn, List.countP_cons, hkl]
        | some b =>
          have hkl : lineSecondKey tz now l =
              some (jsSubstring0 19 (isoString b) ++ "Z") := by simp [lineSecondKey, hb]
          rw [procLine_parsed tz now dev l M _ hkl]
          by_cases hkk : jsSubstring0 19 (isoString b) ++ "Z" = k
          · rw [hkk, mapGetD_set_self]
            simp only [countKeyIn, List.countP_cons, hkl, hkk]
            simp
            omega
          · rw [mapGetD_set_ne _ _ _ _ hkk]
            simp only [countKeyIn, List.countP_cons, hkl]
            simp [hkk]
      rw [hcount]

/-- When every line of the batch shares one second-key, the hints are
consecutive from the stored counter value. -/
theorem procLines_hints (tz now : Int) (dev k : String) (lines : List String) :
    ∀ M : KeyMap, (∀ l ∈ lines, lineSecondKey tz now l = some k) →
      (procLines tz now dev lines M).map LineOut.hint =
        (List.range' (mapGetD M k) lines.length).map some := by
  induction lines with
  | nil => intro M _; rfl
  | cons l rest ih =>
    intro M h
    have hl := h l (by simp)
    simp only [procLines]
    rw [procLine_parsed tz now dev l M k hl]
    simp only [List.map_cons]
    rw [ih (mapSet M k (mapGetD M k + 1)) (fun x hx => h x (by simp [hx]))]
    rw [mapGetD_set_self, List.length_cons, List.range'_succ]
    simp

/-! ## Claim C1 -/

/-- C1 (amended): for a submission of lines whose parsed base timestamps
all share the second-key `k`, processed together in one call, the
sequence hints assigned are exactly `0, 1, ..., N-1` in input order; for
the first 1000 of them (hints below 1000) the hint is also exactly the
millisecond field of the stored `log_timestamp`. -/
theorem seq_hints_zero_to_n (tz now : Int) (dev k : String) (lines : List String)
    (hk : ∀ l ∈ lines, lineSecondKey tz now l = some k) :
    (processLines tz now dev lines).map LineOut.hint =
      (List.range lines.length).map some ∧
    ∀ i : Nat, i < lines.length → i < 1000 →
      msField (((processLines tz now dev lines).getD i dummyOut).entry.log_timestamp) = i := by
  constructor
  · rw [processLines, procLines_hints tz now dev k lines [] hk]
    simp [mapGetD, List.range_eq_range']
  · intro i hi hlt
    have hmem : lines.getD i "" ∈ lines := by
      rw [List.getD_eq_getElem lines "" hi]
      exact List.getElem_mem hi
    have hki : lineSecondKey tz now (lines.getD i "") = some k := hk _ hmem
    rw [processLines, procLines_getD_parsed tz now dev k lines [] i hi hki]
    have hcnt : countKeyIn tz now k (lines.take i) = i := by
      have hall : ∀ l ∈ lines.take i,
          (fun l => decide (lineSecondKey tz now l = some k)) l = true := by
        intro l hl
        simp [hk l (List.mem_of_mem_take hl)]
      rw [countKeyIn, List.countP_eq_length.mpr hall, List.length_take]
      omega
    obtain ⟨b, hb⟩ : ∃ b, getTimestampFromLog tz now (lines.getD i "") 0 = some b := by
      cases hbb : getTimestampFromLog tz now (lines.getD i "") 0 with
      | none =>
        unfold lineSecondKey at hki
        rw [hbb] at hki
        simp at hki
      | some b => exact ⟨b, rfl⟩
    obtain ⟨hshift, hmod⟩ := getTimestampFromLog_base tz now _ b hb (mapGetD [] k + countKeyIn tz now k (lines.take i))
    rw [hshift]
    simp only [Option.getD_some, msField, emod_eq_mod, hcnt, mapGetD]
    omega

theorem seq_hints_zero_to_n_witness :
    (∀ l ∈ (["Sep 04 12:53:01 a", "Sep 04 12:53:01 b"] : List String),
      lineSecondKey 0 1700000000000 l = some "2023-09-04T05:53:01Z") ∧
    ((processLines 0 1700000000000 "d1" ["Sep 04 12:53:01 a", "Sep 04 12:53:01 b"]).map
        LineOut.hint =
      (List.range (["Sep 04 12:53:01 a", "Sep 04 12:53:01 b"] : List String).length).map some ∧
    ∀ i : Nat, i < (["Sep 04 12:53:01 a", "Sep 04 12:53:01 b"] : List String).length →
      i < 1000 →
      msField (((processLines 0 1700000000000 "d1"
          ["Sep 04 12:53:01 a", "Sep 04 12:53:01 b"]).getD i dummyOut).entry.log_timestamp)
        = i) :=
  ⟨by decide, seq_hints_zero_to_n 0 1700000000000 "d1" "2023-09-04T05:53:01Z" _ (by decide)⟩

set_option maxRecDepth 1000000 in
/-- C1 as frozen is false for more than 1000 same-second lines: in a
single submission of 1001 copies of one line, the line at index 1000 is
assigned sequence hint 1000, but the millisecond field stored in its
`log_timestamp` is 0, not 1000. -/
theorem seq_hints_zero_to_n_cex :
    (((processLines 0 1700000000000 "d1"
        (List.replicate 1001 "Sep 04 12:53:01 a")).map LineOut.hint).getD 1000 none
      = some 1000) ∧
    msField (((processLines 0 1700000000000 "d1"
        (List.replicate 1001 "Sep 04 12:53:01 a")).getD 1000 dummyOut).entry.log_timestamp)
      = 0 ∧ (0 : Int) ≠ 1000 := by
  refine ⟨by decide, by decide, by decide⟩

/-! ## Claims C2 and C10 -/

theorem dateUTC_emod (year : Int) (mi day hh mm ss : Nat) :
    dateUTC year mi day hh mm ss % 1000 = 0 := by
  show _ * (1000 : Int) % 1000 = 0
  exact Int.mul_emod_left _ _

/-- C2 (amended): for a line with a recognized `MMM DD HH:MM:SS` prefix,
`getTimestampFromLog` interprets the parsed time with the current
calendar year in the fixed UTC+7 source timezone, converts it to UTC by
subtracting 7 hours, and adds the sequence hint in milliseconds: the
millisecond field of the resulting instant is `hint mod 1000` (equal to
the hint exactly when the hint is below 1000), the rest carrying into
the seconds. -/
theorem ts_utc7_conversion (tz now : Int) (line mon : String) (day hh mm ss mi hint : Nat)
    (hm : matchWith isAsciiLetter line.data = some (mon, day, (hh, mm, ss)))
    (hmon : monthLookup mon = some mi) :
    getTimestampFromLog tz now line hint =
      some (dateUTC (localYear tz now) mi day hh mm ss - 7 * 3600000 + hint) ∧
    msField (dateUTC (localYear tz now) mi day hh mm ss - 7 * 3600000 + hint) =
      (hint : Int) % 1000 ∧
    (hint < 1000 →
      msField (dateUTC (localYear tz now) mi day hh mm ss - 7 * 3600000 + hint) = hint) := by
  have h1000 := dateUTC_emod (localYear tz now) mi day hh mm ss
  simp only [getTimestampFromLog, hm, hmon, Option.some_inj, msField, emod_eq_mod]
  refine ⟨?_, ?_, ?_⟩ <;> omega

theorem ts_utc7_conversion_witness :
    matchWith isAsciiLetter ("Sep 04 12:53:01 hope-vmm boot" : String).data
        = some ("Sep", 4, (12, 53, 1)) ∧
    monthLookup "Sep" = some 8 ∧
    (getTimestampFromLog 0 1700000000000 "Sep 04 12:53:01 hope-vmm boot" 1 =
      some (dateUTC (localYear 0 1700000000000) 8 4 12 53 1 - 7 * 3600000 + 1) ∧
    msField (dateUTC (localYear 0 1700000000000) 8 4 12 53 1 - 7 * 3600000 + 1) =
      ((1 : Nat) : Int) % 1000 ∧
    ((1 : Nat) < 1000 →
      msField (dateUTC (localYear 0 1700000000000) 8 4 12 53 1 - 7 * 3600000 + 1) = (1 : Nat))) :=
  ⟨by decide, by decide,
    ts_utc7_conversion 0 1700000000000 "Sep 04 12:53:01 hope-vmm boot" "Sep" 4 12 53 1 8 1
      (by decide) (by decide)⟩

/-- C2 as frozen is false for sequence hints of 1000 and above: at hint
1000 the millisecond field of the resulting instant is 0, not 1000. -/
theorem ts_utc7_conversion_cex :
    (getTimestampFromLog 0 1700000000000 "Sep 04 12:53:01 hope-vmm boot" 1000).map msField
      = some 0 ∧
    (getTimestampFromLog 0 1700000000000 "Sep 04 12:53:01 hope-vmm boot" 1000).map msField
      ≠ some 1000 := by
  exact ⟨by decide, by decide⟩

/-- C10: for a parseable line and a sequence hint `h ≥ 1000`, the
produced instant is not the base second with millisecond field `h`: it
is the base instant advanced by `h` milliseconds, so its seconds advance
by `h / 1000`, its millisecond field is `h % 1000`, and it lies in a
strictly later second than the base; at an hour boundary this moves the
entry into a different hour bucket (final conjunct: a concrete line at
16:59:59 with hint 1000 lands in the next hour's bucket). -/
theorem hint_overflow_advances_seconds (tz now : Int) (line : String) (h : Nat) (b : Int)
    (hb : getTimestampFromLog tz now line 0 = some b) (hge : 1000 ≤ h) :
    getTimestampFromLog tz now line h = some (b + h) ∧
    (b + h) / 1000 = b / 1000 + ((h / 1000 : Nat) : Int) ∧
    msField (b + h) = ((h % 1000 : Nat) : Int) ∧
    b / 1000 < (b + h) / 1000 ∧
    getHourKey 0 ((getTimestampFromLog 0 1700000000000 "Sep 04 16:59:59 x" 1000).getD 0)
      ≠ getHourKey 0 ((getTimestampFromLog 0 1700000000000 "Sep 04 16:59:59 x" 0).getD 0) := by
  obtain ⟨hshift, hmod⟩ := getTimestampFromLog_base tz now line b hb h
  refine ⟨hshift, ?_, ?_, ?_, by decide⟩
  · omega
  · simp only [msField, emod_eq_mod]
    omega
  · omega

theorem hint_overflow_advances_seconds_witness :
    getTimestampFromLog 0 1700000000000 "Sep 04 12:53:01 a" 0 = some 1693806781000 ∧
    1000 ≤ 2345 ∧
    (getTimestampFromLog 0 1700000000000 "Sep 04 12:53:01 a" 2345 =
      some (1693806781000 + 2345) ∧
    ((1693806781000 : Int) + 2345) / 1000 = 1693806781000 / 1000 + ((2345 / 1000 : Nat) : Int) ∧
    msField (1693806781000 + 2345) = ((2345 % 1000 : Nat) : Int) ∧
    (1693806781000 : Int) / 1000 < (1693806781000 + 2345) / 1000 ∧
    getHourKey 0 ((getTimestampFromLog 0 1700000000000 "Sep 04 16:59:59 x" 1000).getD 0)
      ≠ getHourKey 0 ((getTimestampFromLog 0 1700000000000 "Sep 04 16:59:59 x" 0).getD 0)) :=
  ⟨by decide, by decide,
    hint_overflow_advances_seconds 0 1700000000000 "Sep 04 12:53:01 a" 2345 1693806781000
      (by decide) (by decide)⟩

/-! ## Claim C3 -/

/-- With every attempt failing, the upload loop performs the first
attempt plus exactly `maxRetries` retries and then gives up. -/
theorem uploadToS3_all_fail (oracle : Nat → Bool) (hfail : ∀ n, oracle n = false) :
    uploadToS3 oracle 0 = (1 + maxRetries, false) := by
  have h3 : uploadToS3 oracle 3 = (4, false) := by
    unfold uploadToS3
    simp [hfail, maxRetries]
  have h2 : uploadToS3 oracle 2 = (4, false) := by
    unfold uploadToS3
    simp [hfail, maxRetries, h3]
  have h1 : uploadToS3 oracle 1 = (4, false) := by
    unfold uploadToS3
    simp [hfail, maxRetries, h2]
  unfold uploadToS3
  simp [hfail, maxRetries, h1]

/-- C3: for a file in the processing area whose every upload attempt
fails, the uploader performs exactly 3 retries after the first attempt
(4 attempts in total), and the per-file failure handling moves the file
to the failed area with a sidecar whose `retry_attempts` is 3, leaving
neither the file nor its compressed artifact in the processing area. -/
theorem upload_retries_then_quarantine (oracle : Nat → Bool) (now : Int)
    (fname err : String) (s : SysState)
    (hfail : ∀ n, oracle n = false)
    (hnd : s.processing.Nodup) (hgz : (fname ++ ".gz") ∉ s.processing) :
    uploadToS3 oracle 0 = (1 + maxRetries, false) ∧ maxRetries = 3 ∧
    fname ∈ (handleOneFile oracle now err s fname).1.failed ∧
    (fname ++ ".meta", (⟨now, err, maxRetries⟩ : FailureMeta)) ∈
      (handleOneFile oracle now err s fname).1.metas ∧
    (⟨now, err, maxRetries⟩ : FailureMeta).retry_attempts = 3 ∧
    fname ∉ (handleOneFile oracle now err s fname).1.processing ∧
    (fname ++ ".gz") ∉ (handleOneFile oracle now err s fname).1.processing := by
  have hup := uploadToS3_all_fail oracle hfail
  have hergz : (s.processing ++ [fname ++ ".gz"]).erase (fname ++ ".gz") = s.processing := by
    rw [List.erase_append_right _ hgz]
    simp
  have hpf : processFile oracle s fname = (s, false) := by
    simp only [processFile, hup]
    simp [hergz]
  have hof : handleOneFile oracle now err s fname =
      (handleFailedFile now fname err s, false) := by
    simp only [handleOneFile, hpf]
    simp
  rw [hof]
  refine ⟨hup, rfl, ?_, ?_, rfl, ?_, ?_⟩
  · simp [handleFailedFile]
  · simp [handleFailedFile]
  · simp only [handleFailedFile]
    intro hmem
    rw [List.Nodup.mem_erase_iff hnd] at hmem
    exact hmem.1 rfl
  · simp only [handleFailedFile]
    intro hmem
    exact hgz (List.mem_of_mem_erase hmem)

theorem upload_retries_then_quarantine_witness :
    (∀ n : Nat, (fun _ => false : Nat → Bool) n = false) ∧
    (["2025-09-04-11.log"] : List String).Nodup ∧
    ("2025-09-04-11.log" ++ ".gz") ∉ (["2025-09-04-11.log"] : List String) ∧
    (uploadToS3 (fun _ => false) 0 = (1 + maxRetries, false) ∧ maxRetries = 3 ∧
    "2025-09-04-11.log" ∈ (handleOneFile (fun _ => false) 0 "network error"
        ⟨false, [], ["2025-09-04-11.log"], [], []⟩ "2025-09-04-11.log").1.failed ∧
    ("2025-09-04-11.log" ++ ".meta", (⟨0, "network error", maxRetries⟩ : FailureMeta)) ∈
      (handleOneFile (fun _ => false) 0 "network error"
        ⟨false, [], ["2025-09-04-11.log"], [], []⟩ "2025-09-04-11.log").1.metas ∧
    ((⟨0, "network error", maxRetries⟩ : FailureMeta).retry_attempts = 3) ∧
    "2025-09-04-11.log" ∉ (handleOneFile (fun _ => false) 0 "network error"
        ⟨false, [], ["2025-09-04-11.log"], [], []⟩ "2025-09-04-11.log").1.processing ∧
    ("2025-09-04-11.log" ++ ".gz") ∉ (handleOneFile (fun _ => false) 0 "network error"
        ⟨false, [], ["2025-09-04-11.log"], [], []⟩ "2025-09-04-11.log").1.processing) :=
  ⟨fun _ => rfl, by decide, by decide,
    upload_retries_then_quarantine (fun _ => false) 0 "2025-09-04-11.log" "network error"
      ⟨false, [], ["2025-09-04-11.log"], [], []⟩ (fun _ => rfl) (by decide) (by decide)⟩

/-! ## Claim C4 -/

theorem charListIsPrefix_append (p t : List Char) : charListIsPrefix p (p ++ t) = true := by
  induction p with
  | nil => rfl
  | cons a as ih => simp [charListIsPrefix, ih]

theorem jsStartsWith_append (k t : String) : jsStartsWith (k ++ t) k = true := by
  simp only [jsStartsWith, String.data_append]
  exact charListIsPrefix_append _ _

/-- C4: every file the sweep selects and relocates has a name that does
not begin with the current hour key, and in particular the current-hour
bucket file itself is never relocated, at any invocation time. -/
theorem sweep_skips_current_hour (tz now : Int) (moveOk : String → Bool) (s : SysState) :
    (∀ f ∈ (sweepCompletedFiles tz now moveOk s).1,
      jsStartsWith f (sweepCurrentHourKey tz now) = false) ∧
    sweepCurrentHourKey tz now ++ ".log" ∉ (sweepCompletedFiles tz now moveOk s).1 := by
  have hmain : ∀ f ∈ (sweepCompletedFiles tz now moveOk s).1,
      jsStartsWith f (sweepCurrentHourKey tz now) = false := by
    intro f hf
    simp only [sweepCompletedFiles] at hf
    rw [List.mem_filter] at hf
    obtain ⟨hf1, _⟩ := hf
    rw [List.mem_filter] at hf1
    obtain ⟨_, hp⟩ := hf1
    simp only [Bool.and_eq_true, Bool.not_eq_true'] at hp
    exact hp.2
  refine ⟨hmain, fun hmem => ?_⟩
  have hfalse := hmain _ hmem
  rw [jsStartsWith_append] at hfalse
  exact Bool.true_eq_false.mp hfalse

theorem sweep_skips_current_hour_witness :
    "2023-11-14-21.log" ∈ (sweepCompletedFiles 0 1700000000000 (fun _ => true)
        ⟨false, ["2023-11-14-21.log", "2023-11-14-22.log"], [], [], []⟩).1 ∧
    jsStartsWith "2023-11-14-21.log" (sweepCurrentHourKey 0 1700000000000) = false ∧
    sweepCurrentHourKey 0 1700000000000 ++ ".log" ∉
      (sweepCompletedFiles 0 1700000000000 (fun _ => true)
        ⟨false, ["2023-11-14-21.log", "2023-11-14-22.log"], [], [], []⟩).1 :=
  ⟨by decide,
    (sweep_skips_current_hour 0 1700000000000 (fun _ => true)
      ⟨false, ["2023-11-14-21.log", "2023-11-14-22.log"], [], [], []⟩).1 _ (by decide),
    (sweep_skips_current_hour 0 1700000000000 (fun _ => true)
      ⟨false, ["2023-11-14-21.log", "2023-11-14-22.log"], [], [], []⟩).2⟩

/-! ## Claim C5 -/

/-- C5: starting a cycle while one is active is a complete no-op: the
state (all directory contents included) is returned unchanged and no
RunStatus transition is written. -/
theorem reentrancy_guard_noop (oracle : Nat → Bool) (moveOk : String → Bool) (tz now : Int)
    (err : String) (s : SysState) (h : s.isProcessing = true) :
    runCycle oracle moveOk tz now err s = (s, []) := by
  simp [runCycle, h]

theorem reentrancy_guard_noop_witness :
    (⟨true, ["2023-11-14-21.log"], ["2023-11-14-20.log"], [], []⟩ : SysState).isProcessing
        = true ∧
    runCycle (fun _ => true) (fun _ => true) 0 1700000000000 "e"
        ⟨true, ["2023-11-14-21.log"], ["2023-11-14-20.log"], [], []⟩ =
      (⟨true, ["2023-11-14-21.log"], ["2023-11-14-20.log"], [], []⟩, []) :=
  ⟨rfl, reentrancy_guard_noop (fun _ => true) (fun _ => true) 0 1700000000000 "e"
    ⟨true, ["2023-11-14-21.log"], ["2023-11-14-20.log"], [], []⟩ rfl⟩

/-! ## Claim C6 -/

theorem groupAppend_inv (tz : Int) (m : List (String × List LogEntry)) (e : LogEntry)
    (h : ∀ p ∈ m, ∀ x ∈ p.2, p.1 = entryFilename tz x) :
    ∀ p ∈ groupAppend m (entryFilename tz e) e, ∀ x ∈ p.2, p.1 = entryFilename tz x := by
  induction m with
  | nil =>
    intro p hp x hx
    simp only [groupAppend, List.mem_singleton] at hp
    subst hp
    simp only [List.mem_singleton] at hx
    subst hx
    rfl
  | cons q rest ih =>
    obtain ⟨k1, es⟩ := q
    intro p hp x hx
    by_cases hk : k1 = entryFilename tz e
    · simp only [groupAppend, if_pos hk, List.mem_cons] at hp
      rcases hp with hp | hp
      · subst hp
        simp only [List.mem_append, List.mem_singleton] at hx
        rcases hx with hx | hx
        · exact h (k1, es) (by simp) x hx
        · subst hx
          exact hk
      · exact h p (by simp [hp]) x hx
    · simp only [groupAppend, if_neg hk, List.mem_cons] at hp
      rcases hp with hp | hp
      · subst hp
        exact h (k1, es) (by simp) x hx
      · exact ih (fun p hp => h p (by simp [hp])) p hp x hx

theorem groupByFile_key (tz : Int) (es : List LogEntry) :
    ∀ m0 : List (String × List LogEntry),
      (∀ p ∈ m0, ∀ x ∈ p.2, p.1 = entryFilename tz x) →
      ∀ p ∈ es.foldl (fun m e => groupAppend m (entryFilename tz e) e) m0,
        ∀ x ∈ p.2, p.1 = entryFilename tz x := by
  induction es with
  | nil => intro m0 h; simpa using h
  | cons e rest ih =>
    intro m0 h
    simp only [List.foldl_cons]
    exact ih _ (groupAppend_inv tz m0 e h)

/-- C6: in a processed submission, every entry is grouped under the
bucket filename derived from its own stored `log_timestamp` (the
resolved event time): the key is a function of the entry's event time
alone, never of the wall-clock arrival time. -/
theorem bucket_key_from_event_time (tz now : Int) (dev content : String) :
    ∀ p ∈ fileEntriesOf tz now dev content, ∀ e ∈ p.2, p.1 = entryFilename tz e := by
  have h := groupByFile_key tz (processedEntries tz now dev content) [] (by simp)
  simpa [fileEntriesOf, groupByFile] using h

theorem bucket_key_from_event_time_witness :
    ("2023-09-04-05.log",
        [(⟨"d1", 1693806781000, "Sep 04 12:53:01 a"⟩ : LogEntry),
          ⟨"d1", 1693806781001, "Sep 04 12:53:01 b"⟩]) ∈
      fileEntriesOf 0 1700000000000 "d1" "Sep 04 12:53:01 a\nSep 04 12:53:01 b" ∧
    (⟨"d1", 1693806781001, "Sep 04 12:53:01 b"⟩ : LogEntry) ∈
      [(⟨"d1", 1693806781000, "Sep 04 12:53:01 a"⟩ : LogEntry),
        ⟨"d1", 1693806781001, "Sep 04 12:53:01 b"⟩] ∧
    "2023-09-04-05.log" = entryFilename 0 ⟨"d1", 1693806781001, "Sep 04 12:53:01 b"⟩ := by
  have hval : fileEntriesOf 0 1700000000000 "d1" "Sep 04 12:53:01 a\nSep 04 12:53:01 b" =
      [("2023-09-04-05.log",
        [(⟨"d1", 1693806781000, "Sep 04 12:53:01 a"⟩ : LogEntry),
          ⟨"d1", 1693806781001, "Sep 04 12:53:01 b"⟩])] := by decide
  refine ⟨?_, ?_, ?_⟩
  · rw [hval]
    simp
  · simp
  · exact bucket_key_from_event_time 0 1700000000000 "d1"
      "Sep 04 12:53:01 a\nSep 04 12:53:01 b"
      ("2023-09-04-05.log",
        [(⟨"d1", 1693806781000, "Sep 04 12:53:01 a"⟩ : LogEntry),
          ⟨"d1", 1693806781001, "Sep 04 12:53:01 b"⟩])
      (by rw [hval]; simp)
      ⟨"d1", 1693806781001, "Sep 04 12:53:01 b"⟩
      (by simp)

/-! ## Claim C7 -/

theorem mapGetD_clean (now : Int) (M : KeyMap) (k : String)
    (h : jsStrLt k (formatTimestampKey (now - 60 * 60 * 1000)) = false) :
    mapGetD (cleanOldCounters now M) k = mapGetD M k := by
  induction M with
  | nil => rfl
  | cons kv rest ih =>
    obtain ⟨k1, v1⟩ := kv
    by_cases h1 : k1 = k
    · subst h1
      simp only [cleanOldCounters, List.filter_cons, h, Bool.not_false, if_pos]
      simp [mapGetD]
    · simp only [cleanOldCounters, List.filter_cons]
      cases hd : !jsStrLt k1 (formatTimestampKey (now - 60 * 60 * 1000)) with
      | true =>
        simp only [if_pos]
        simpa [mapGetD, h1] using ih
      | false =>
        simp only [Bool.false_eq_true, if_neg, not_false_eq_true]
        simpa [mapGetD, h1] using ih

theorem parseStep_parsed (tz : Int) (msg : String) (now : Int) (M : KeyMap) (k : String)
    (hk : legacyKey tz now msg = some k) :
    parseStep tz msg now M =
      (some (mapGetD M k + 1),
        cleanOldCounters now (mapSet M k (mapGetD M k + 1))) := by
  cases hm : matchWith isWordChar msg.data with
  | none => simp [legacyKey, hm] at hk
  | some r =>
    obtain ⟨mon, day, hh, mm, ss⟩ := r
    cases hd : jsDateParseLocal tz (localYear tz now) mon day hh mm ss with
    | none => simp [legacyKey, hm, hd] at hk
    | some base =>
      have hk2 : formatTimestampKey base = k := by
        simpa [legacyKey, hm, hd] using hk
      simp only [parseStep, parseAndEnhanceTimestamp, hm, hd, hk2]

/-- Counters assigned by a run of legacy calls that all parse to the
same second-key, when that key is never pruned: consecutive values
starting one above the stored counter (so `1, 2, 3, ...` from a fresh
map). -/
theorem legacyFold_counters (tz : Int) (k : String) (calls : List (String × Int)) :
    ∀ M : KeyMap,
      (∀ c ∈ calls, legacyKey tz c.2 c.1 = some k) →
      (∀ c ∈ calls, jsStrLt k (formatTimestampKey (c.2 - 60 * 60 * 1000)) = false) →
      legacyFold tz calls M = (List.range' (mapGetD M k + 1) calls.length).map some := by
  induction calls with
  | nil => intro M _ _; rfl
  | cons c rest ih =>
    obtain ⟨msg, now⟩ := c
    intro M hk hp
    have hk1 := hk (msg, now) (by simp)
    have hp1 := hp (msg, now) (by simp)
    simp only [legacyFold]
    rw [parseStep_parsed tz msg now M k hk1]
    rw [ih _ (fun c hc => hk c (by simp [hc])) (fun c hc => hp c (by simp [hc]))]
    rw [mapGetD_clean now _ k hp1, mapGetD_set_self]
    rw [List.length_cons, List.range'_succ]
    simp

/-- C7 (amended): in the per-batch variant, within one second-key the
hints assigned to successive lines are exactly the number of earlier
same-key lines — strictly increasing from 0 in observation order, never
reused.  In the process-lifetime (legacy) variant, within one retained
second-key the counters are strictly increasing in observation order but
start at 1, not 0 (and a key is only retained while it is not pruned as
older than one hour). -/
theorem counters_increase_within_key :
    (∀ (tz now : Int) (dev k : String) (lines : List String) (i : Nat),
      i < lines.length →
      lineSecondKey tz now (lines.getD i "") = some k →
      ((processLines tz now dev lines).getD i dummyOut).hint
        = some (countKeyIn tz now k (lines.take i))) ∧
    (∀ (tz : Int) (k : String) (calls : List (String × Int)) (M : KeyMap),
      (∀ c ∈ calls, legacyKey tz c.2 c.1 = some k) →
      (∀ c ∈ calls, jsStrLt k (formatTimestampKey (c.2 - 60 * 60 * 1000)) = false) →
      legacyFold tz calls M =
        (List.range' (mapGetD M k + 1) calls.length).map some) := by
  constructor
  · intro tz now dev k lines i hi hki
    rw [processLines, procLines_getD_parsed tz now dev k lines [] i hi hki]
    simp [mapGetD]
  · exact fun tz k calls M hk hp => legacyFold_counters tz k calls M hk hp

theorem counters_increase_within_key_witness :
    (1 < (["Sep 04 12:53:01 a", "Sep 04 12:53:01 b"] : List String).length ∧
    lineSecondKey 0 1700000000000
        ((["Sep 04 12:53:01 a", "Sep 04 12:53:01 b"] : List String).getD 1 "")
      = some "2023-09-04T05:53:01Z" ∧
    ((processLines 0 1700000000000 "d1"
        ["Sep 04 12:53:01 a", "Sep 04 12:53:01 b"]).getD 1 dummyOut).hint
      = some (countKeyIn 0 1700000000000 "2023-09-04T05:53:01Z"
          ((["Sep 04 12:53:01 a", "Sep 04 12:53:01 b"] : List String).take 1))) ∧
    ((∀ c ∈ ([("Sep 04 12:53:01 a", 1693832000000), ("Sep 04 12:53:01 b", 1693832000000)] :
        List (String × Int)), legacyKey 0 c.2 c.1 = some "2023-09-04T12:53:01") ∧
    (∀ c ∈ ([("Sep 04 12:53:01 a", 1693832000000), ("Sep 04 12:53:01 b", 1693832000000)] :
        List (String × Int)),
      jsStrLt "2023-09-04T12:53:01" (formatTimestampKey (c.2 - 60 * 60 * 1000)) = false) ∧
    legacyFold 0 [("Sep 04 12:53:01 a", 1693832000000), ("Sep 04 12:53:01 b", 1693832000000)]
        [] =
      (List.range' (mapGetD [] "2023-09-04T12:53:01" + 1)
        ([("Sep 04 12:53:01 a", 1693832000000),
          ("Sep 04 12:53:01 b", 1693832000000)] : List (String × Int)).length).map some) :=
  ⟨⟨by decide, by decide,
      counters_increase_within_key.1 0 1700000000000 "d1" "2023-09-04T05:53:01Z"
        ["Sep 04 12:53:01 a", "Sep 04 12:53:01 b"] 1 (by decide) (by decide)⟩,
    ⟨by decide, by decide,
      counters_increase_within_key.2 0 "2023-09-04T12:53:01"
        [("Sep 04 12:53:01 a", 1693832000000), ("Sep 04 12:53:01 b", 1693832000000)] []
        (by decide) (by decide)⟩⟩

/-- C7 as frozen is false on the process-lifetime (legacy) variant: the
first line filed under a fresh second-key is assigned counter 1, not 0,
and its stored millisecond field is 1. -/
theorem counters_increase_within_key_cex :
    legacyFold 0 [("Sep 04 12:53:01 boot", 1693832000000)] [] = [some 1] ∧
    some (1 : Nat) ≠ some 0 ∧
    (parseAndEnhanceTimestamp 0 1693832000000 "Sep 04 12:53:01 boot" []).map
        (fun r => msField r.enhancedTimestamp) = some 1 := by
  exact ⟨by decide, by decide, by decide⟩

/-! ## Claim C9 -/

/-- The rate the spec sentence describes: ingestion calls lying within
the five minutes before the query instant, divided by 5. -/
def claimedRate (calls : List Int) (queryTime : Int) : ℚ :=
  ((calls.filter (fun t => decide (queryTime - 5 * 60 * 1000 < t))).length : ℚ) / 5

theorem foldl_trackRequest_sorted (ts : List Int) :
    ∀ t : Int, (∀ x ∈ ts, x ≤ t) → List.Sorted (· ≤ ·) ts →
      (ts ++ [t]).foldl trackRequest [] =
        (ts ++ [t]).filter (fun x => decide (t - 5 * 60 * 1000 < x)) := by
  induction ts using List.reverseRecOn with
  | nil => intro t _ _; rfl
  | append_singleton ts t1 ih =>
    intro t hle hsort
    have hsub : List.Sorted (· ≤ ·) ts ∧ ∀ x ∈ ts, x ≤ t1 := by
      rw [List.Sorted, List.pairwise_append] at hsort
      exact ⟨hsort.1, fun x hx => hsort.2.2 x hx t1 (by simp)⟩
    have ht1 : t1 ≤ t := hle t1 (by simp)
    rw [List.foldl_append, List.foldl_append]
    simp only [List.foldl_cons, List.foldl_nil]
    have hprev := ih t1 hsub.2 hsub.1
    rw [List.foldl_append] at hprev
    simp only [List.foldl_cons, List.foldl_nil] at hprev
    rw [hprev]
    show ((ts ++ [t1]).filter (fun x => decide (t1 - 5 * 60 * 1000 < x)) ++ [t]).filter
        (fun x => decide (t - 5 * 60 * 1000 < x)) = _
    rw [List.filter_append, List.filter_filter]
    have hcong : ∀ x ∈ ts ++ [t1],
        (decide (t - 5 * 60 * 1000 < x) && decide (t1 - 5 * 60 * 1000 < x))
          = decide (t - 5 * 60 * 1000 < x) := by
      intro x _
      cases hx : decide (t - 5 * 60 * 1000 < x) with
      | false => rfl
      | true =>
        have hA := of_decide_eq_true hx
        have hB : decide (t1 - 5 * 60 * 1000 < x) = true := decide_eq_true (by omega)
        rw [hB]
        rfl
    rw [List.filter_congr hcong, List.filter_append]
    have hT : t - 5 * 60 * 1000 < t := by omega
    simp [List.filter_append, List.filter_cons, hT]
    split <;> rfl

/-- C9 (amended): the tracked-request list is pruned only at ingestion
time.  After any monotone sequence of ingestion calls ending at time
`t`, the retained list is exactly the calls within five minutes of `t`
(the last ingestion), and the rate returned by the read entry point is
that count divided by 5 — which equals the count of calls within the
last five minutes of the query only when the query time coincides with
the last ingestion time `t`. -/
theorem ingestion_rate_window (ts : List Int) (t : Int)
    (hs : List.Sorted (· ≤ ·) (ts ++ [t])) :
    (ts ++ [t]).foldl trackRequest [] =
      (ts ++ [t]).filter (fun x => decide (t - 5 * 60 * 1000 < x)) ∧
    getIngestionRate ((ts ++ [t]).foldl trackRequest []) = claimedRate (ts ++ [t]) t := by
  have hsub : List.Sorted (· ≤ ·) ts ∧ ∀ x ∈ ts, x ≤ t := by
    rw [List.Sorted, List.pairwise_append] at hs
    exact ⟨hs.1, fun x hx => hs.2.2 x hx t (by simp)⟩
  have h1 := foldl_trackRequest_sorted ts t hsub.2 hsub.1
  exact ⟨h1, by rw [h1]; rfl⟩

theorem ingestion_rate_window_witness :
    List.Sorted (· ≤ ·) (([0, 100000] : List Int) ++ [400000]) ∧
    ((([0, 100000] : List Int) ++ [400000]).foldl trackRequest [] =
      (([0, 100000] : List Int) ++ [400000]).filter
        (fun x => decide (400000 - 5 * 60 * 1000 < x)) ∧
    getIngestionRate ((([0, 100000] : List Int) ++ [400000]).foldl trackRequest []) =
      claimedRate (([0, 100000] : List Int) ++ [400000]) 400000) :=
  ⟨by decide, ingestion_rate_window [0, 100000] 400000 (by decide)⟩

/-- C9 as frozen is false: the read entry point does not re-filter at
query time.  One ingestion call at instant 0 and a query at instant
600000 (ten minutes later): the code returns 1/5, but no ingestion call
lies within the five minutes before the query, so the claimed value is
0. -/
theorem ingestion_rate_cex :
    getIngestionRate (trackRequest [] 0) = 1 / 5 ∧
    claimedRate (trackRequest [] 0) 600000 = 0 ∧
    (1 / 5 : ℚ) ≠ 0 := by
  refine ⟨?_, ?_, by norm_num⟩
  · have h : trackRequest [] 0 = [0] := by decide
    rw [h]
    norm_num [getIngestionRate]
  · have h : trackRequest [] 0 = [0] := by decide
    rw [h]
    norm_num [claimedRate]

/-! ## Claim C8: characterising the recognizable prefix -/

/-- The spec's description of a recognizable line: it starts with three
letters (a month abbreviation among the twelve recognized ones), one or
more spaces, a one- or two-digit day, one or more spaces, and a
`HH:MM:SS` group. -/
def RecognizedTimestampLine (s : String) : Prop :=
  ∃ (m1 m2 m3 : Char) (sp1 day sp2 : List Char) (h1 h2 mi1 mi2 s1 s2 : Char)
    (rest : List Char),
    s.data = m1 :: m2 :: m3 :: (sp1 ++ day ++ sp2 ++
      ([h1, h2, ':', mi1, mi2, ':', s1, s2] ++ rest)) ∧
    isAsciiLetter m1 = true ∧ isAsciiLetter m2 = true ∧ isAsciiLetter m3 = true ∧
    sp1 ≠ [] ∧ (∀ c ∈ sp1, isJsSpace c = true) ∧
    (day.length = 1 ∨ day.length = 2) ∧ (∀ c ∈ day, isDigitJs c = true) ∧
    sp2 ≠ [] ∧ (∀ c ∈ sp2, isJsSpace c = true) ∧
    isDigitJs h1 = true ∧ isDigitJs h2 = true ∧ isDigitJs mi1 = true ∧
    isDigitJs mi2 = true ∧ isDigitJs s1 = true ∧ isDigitJs s2 = true ∧
    (⟨[m1, m2, m3]⟩ : String) ∈ (["Jan", "Feb", "Mar", "Apr", "May", "Jun",
      "Jul", "Aug", "Sep", "Oct", "Nov", "Dec"] : List String)

theorem isDigitJs_not_space (c : Char) (h : isDigitJs c = true) : isJsSpace c = false := by
  simp only [isDigitJs, Bool.and_eq_true, decide_eq_true_eq] at h
  cases hB : isJsSpace c with
  | false => rfl
  | true =>
    exfalso
    simp only [isJsSpace, Bool.or_eq_true, Bool.and_eq_true, beq_iff_eq,
      decide_eq_true_eq] at hB
    omega

theorem space_not_digit (c : Char) (h : isJsSpace c = true) : isDigitJs c = false := by
  cases hB : isDigitJs c with
  | false => rfl
  | true => rw [isDigitJs_not_space c hB] at h; exact absurd h (by simp)

theorem takeWhile_append_not (p : Char → Bool) (sp : List Char)
    (hsp : ∀ c ∈ sp, p c = true) (d : Char) (hd : p d = false) (t : List Char) :
    (sp ++ d :: t).takeWhile p = sp ∧ (sp ++ d :: t).dropWhile p = d :: t := by
  induction sp with
  | nil => simp [List.takeWhile_cons, List.dropWhile_cons, hd]
  | cons a as ih =>
    have ha := hsp a (by simp)
    have ih2 := ih (fun c hc => hsp c (by simp [hc]))
    simp [List.takeWhile_cons, List.dropWhile_cons, ha, ih2.1, ih2.2]

theorem time8_of_shape (h1 h2 mi1 mi2 s1 s2 : Char) (rest : List Char)
    (d1 : isDigitJs h1 = true) (d2 : isDigitJs h2 = true) (d3 : isDigitJs mi1 = true)
    (d4 : isDigitJs mi2 = true) (d5 : isDigitJs s1 = true) (d6 : isDigitJs s2 = true) :
    time8 ([h1, h2, ':', mi1, mi2, ':', s1, s2] ++ rest) =
      some (digitVal h1 * 10 + digitVal h2, digitVal mi1 * 10 + digitVal mi2,
        digitVal s1 * 10 + digitVal s2) := by
  simp [time8, d1, d2, d3, d4, d5, d6]

theorem time8_some (l : List Char) (v : Nat × Nat × Nat) (h : time8 l = some v) :
    ∃ h1 h2 mi1 mi2 s1 s2 rest, l = [h1, h2, ':', mi1, mi2, ':', s1, s2] ++ rest ∧
      isDigitJs h1 = true ∧ isDigitJs h2 = true ∧ isDigitJs mi1 = true ∧
      isDigitJs mi2 = true ∧ isDigitJs s1 = true ∧ isDigitJs s2 = true := by
  rcases l with _ | ⟨a, _ | ⟨b, _ | ⟨c, _ | ⟨d, _ | ⟨e, _ | ⟨f, _ | ⟨g, _ | ⟨k, rest⟩⟩⟩⟩⟩⟩⟩⟩
  all_goals simp only [time8] at h
  all_goals try exact Option.noConfusion h
  split_ifs at h with hc
  · simp only [Bool.and_eq_true, beq_iff_eq] at hc
    obtain ⟨⟨⟨⟨⟨⟨⟨ha, hb⟩, hc1⟩, hd⟩, he⟩, hf⟩, hg⟩, hk⟩ := hc
    subst hc1
    subst hf
    exact ⟨a, b, d, e, g, k, rest, rfl, ha, hb, hd, he, hg, hk⟩

theorem spacesThenTime_of_shape (sp : List Char) (hne : sp ≠ [])
    (hsp : ∀ c ∈ sp, isJsSpace c = true)
    (h1 h2 mi1 mi2 s1 s2 : Char) (rest : List Char)
    (d1 : isDigitJs h1 = true) (d2 : isDigitJs h2 = true) (d3 : isDigitJs mi1 = true)
    (d4 : isDigitJs mi2 = true) (d5 : isDigitJs s1 = true) (d6 : isDigitJs s2 = true) :
    spacesThenTime (sp ++ ([h1, h2, ':', mi1, mi2, ':', s1, s2] ++ rest)) =
      some (digitVal h1 * 10 + digitVal h2, digitVal mi1 * 10 + digitVal mi2,
        digitVal s1 * 10 + digitVal s2) := by
  have hns := isDigitJs_not_space h1 d1
  have hsplit := takeWhile_append_not isJsSpace sp hsp h1 hns
    ([h2, ':', mi1, mi2, ':', s1, s2] ++ rest)
  have hne2 : sp.isEmpty = false := by
    cases sp with
    | nil => exact absurd rfl hne
    | cons a as => rfl
  simp only [List.cons_append] at hsplit ⊢
  simp only [spacesThenTime, hsplit.1, hsplit.2, hne2, Bool.false_eq_true, if_false]
  exact time8_of_shape h1 h2 mi1 mi2 s1 s2 rest d1 d2 d3 d4 d5 d6

theorem spacesThenTime_some (cs : List Char) (v : Nat × Nat × Nat)
    (h : spacesThenTime cs = some v) :
    ∃ sp rest1, sp ≠ [] ∧ (∀ c ∈ sp, isJsSpace c = true) ∧ cs = sp ++ rest1 ∧
      time8 rest1 = some v := by
  simp only [spacesThenTime] at h
  split_ifs at h with he
  refine ⟨cs.takeWhile isJsSpace, cs.dropWhile isJsSpace, ?_, ?_, ?_, h⟩
  · intro hnil
    rw [hnil] at he
    exact he rfl
  · exact fun c hc => List.mem_takeWhile_imp hc
  · exact (List.takeWhile_append_dropWhile isJsSpace cs).symm

theorem isEmpty_false_of_ne_nil (l : List Char) (h : l ≠ []) : l.isEmpty = false := by
  cases l with
  | nil => exact absurd rfl h
  | cons a as => rfl

/-- A line of the recognizable shape is matched by the regex, capturing
the three month characters and the time fields. -/
theorem matchWith_of_shape (cls : Char → Bool) (m1 m2 m3 : Char) (sp1 day sp2 : List Char)
    (h1 h2 mi1 mi2 s1 s2 : Char) (rest : List Char)
    (hm1 : cls m1 = true) (hm2 : cls m2 = true) (hm3 : cls m3 = true)
    (hsp1 : sp1 ≠ []) (hsp1a : ∀ c ∈ sp1, isJsSpace c = true)
    (hday : day.length = 1 ∨ day.length = 2) (hdd : ∀ c ∈ day, isDigitJs c = true)
    (hsp2 : sp2 ≠ []) (hsp2a : ∀ c ∈ sp2, isJsSpace c = true)
    (d1 : isDigitJs h1 = true) (d2 : isDigitJs h2 = true) (d3 : isDigitJs mi1 = true)
    (d4 : isDigitJs mi2 = true) (d5 : isDigitJs s1 = true) (d6 : isDigitJs s2 = true) :
    ∃ dayv, matchWith cls (m1 :: m2 :: m3 :: (sp1 ++ day ++ sp2 ++
        ([h1, h2, ':', mi1, mi2, ':', s1, s2] ++ rest))) =
      some (⟨[m1, m2, m3]⟩, dayv, (digitVal h1 * 10 + digitVal h2,
        digitVal mi1 * 10 + digitVal mi2, digitVal s1 * 10 + digitVal s2)) := by
  have hstt := spacesThenTime_of_shape sp2 hsp2 hsp2a h1 h2 mi1 mi2 s1 s2 rest
    d1 d2 d3 d4 d5 d6
  simp only [List.cons_append, List.append_assoc, List.nil_append] at hstt
  rcases day with _ | ⟨dd1, dtl⟩
  · rcases hday with h | h <;> simp at h
  have hdd1 : isDigitJs dd1 = true := hdd dd1 (by simp)
  rcases dtl with _ | ⟨dd2, dtl2⟩
  · have hsplit := takeWhile_append_not isJsSpace sp1 hsp1a dd1
      (isDigitJs_not_space dd1 hdd1)
      (sp2 ++ (h1 :: h2 :: ':' :: mi1 :: mi2 :: ':' :: s1 :: s2 :: rest))
    rcases sp2 with _ | ⟨c2, sp2t⟩
    · exact absurd rfl hsp2
    have hc2 : isDigitJs c2 = false := space_not_digit c2 (hsp2a c2 (by simp))
    refine ⟨digitVal dd1, ?_⟩
    simp only [List.cons_append, List.append_assoc, List.nil_append] at hsplit hstt ⊢
    simp only [matchWith, hm1, hm2, hm3, Bool.and_self, Bool.true_and, if_true,
      hsplit.1, hsplit.2, isEmpty_false_of_ne_nil sp1 hsp1, Bool.false_eq_true,
      if_false, dayTime, hdd1, twoDigitDay, hc2, Option.orElse, hstt, Option.map_some]
    rfl
  · rcases dtl2 with _ | ⟨x, xs⟩
    · have hdd2 : isDigitJs dd2 = true := hdd dd2 (by simp)
      have hsplit := takeWhile_append_not isJsSpace sp1 hsp1a dd1
        (isDigitJs_not_space dd1 hdd1)
        (dd2 :: (sp2 ++ (h1 :: h2 :: ':' :: mi1 :: mi2 :: ':' :: s1 :: s2 :: rest)))
      refine ⟨digitVal dd1 * 10 + digitVal dd2, ?_⟩
      simp only [List.cons_append, List.append_assoc, List.nil_append] at hsplit hstt ⊢
      simp only [matchWith, hm1, hm2, hm3, Bool.and_self, Bool.true_and, if_true,
        hsplit.1, hsplit.2, isEmpty_false_of_ne_nil sp1 hsp1, Bool.false_eq_true,
        if_false, dayTime, hdd1, twoDigitDay, hdd2, Option.orElse, hstt, Option.map_some]
      rfl
    · rcases hday with h | h <;> simp at h

/-- A successful regex match exposes the recognizable shape, with the
month capture being the first three characters. -/
theorem matchWith_some (cls : Char → Bool) (cs : List Char) (mon : String) (dayv : Nat)
    (tv : Nat × Nat × Nat) (h : matchWith cls cs = some (mon, dayv, tv)) :
    ∃ m1 m2 m3 sp1 day sp2 h1 h2 mi1 mi2 s1 s2 rest,
      cs = m1 :: m2 :: m3 :: (sp1 ++ day ++ sp2 ++
        ([h1, h2, ':', mi1, mi2, ':', s1, s2] ++ rest)) ∧
      mon = (⟨[m1, m2, m3]⟩ : String) ∧
      cls m1 = true ∧ cls m2 = true ∧ cls m3 = true ∧
      sp1 ≠ [] ∧ (∀ c ∈ sp1, isJsSpace c = true) ∧
      (day.length = 1 ∨ day.length = 2) ∧ (∀ c ∈ day, isDigitJs c = true) ∧
      sp2 ≠ [] ∧ (∀ c ∈ sp2, isJsSpace c = true) ∧
      isDigitJs h1 = true ∧ isDigitJs h2 = true ∧ isDigitJs mi1 = true ∧
      isDigitJs mi2 = true ∧ isDigitJs s1 = true ∧ isDigitJs s2 = true := by
  rcases cs with _ | ⟨m1, _ | ⟨m2, _ | ⟨m3, r0⟩⟩⟩
  all_goals simp only [matchWith] at h
  all_goals try exact Option.noConfusion h
  by_cases hcls : (cls m1 && cls m2 && cls m3) = true
  case neg => rw [if_neg hcls] at h; exact Option.noConfusion h
  rw [if_pos hcls] at h
  by_cases hemp : (r0.takeWhile isJsSpace).isEmpty = true
  case pos => rw [if_pos hemp] at h; exact Option.noConfusion h
  rw [if_neg hemp] at h
  have hr0 : r0 = r0.takeWhile isJsSpace ++ r0.dropWhile isJsSpace :=
    (List.takeWhile_append_dropWhile isJsSpace r0).symm
  have hsp1a : ∀ c ∈ r0.takeWhile isJsSpace, isJsSpace c = true :=
    fun c hc => List.mem_takeWhile_imp hc
  have hsp1 : r0.takeWhile isJsSpace ≠ [] := by
    intro hnil
    rw [hnil] at hemp
    exact hemp rfl
  simp only [Bool.and_eq_true] at hcls
  obtain ⟨⟨hm1, hm2⟩, hm3⟩ := hcls
  rw [Option.map_eq_some'] at h
  obtain ⟨⟨dv, tval⟩, hdt, heq⟩ := h
  simp only [Prod.mk.injEq] at heq
  obtain ⟨hmon, _, htv⟩ := heq
  cases hdw : r0.dropWhile isJsSpace with
  | nil => rw [hdw] at hdt; exact Option.noConfusion hdt
  | cons dd1 r2 =>
    rw [hdw] at hdt
    simp only [dayTime] at hdt
    split_ifs at hdt with hdd1
    · cases r2 with
      | nil =>
        simp [twoDigitDay, spacesThenTime, Option.orElse] at hdt
      | cons dd2 r3 =>
        by_cases hdd2 : isDigitJs dd2 = true
        · cases hst : spacesThenTime r3 with
          | none =>
            rw [show twoDigitDay dd1 (dd2 :: r3) = none from by
              simp [twoDigitDay, hdd2, hst]] at hdt
            have hns : (dd2 :: r3).takeWhile isJsSpace = [] := by
              simp [List.takeWhile_cons, isDigitJs_not_space dd2 hdd2]
            simp [Option.orElse, spacesThenTime, hns] at hdt
          | some tv2 =>
            rw [show twoDigitDay dd1 (dd2 :: r3) =
                some (digitVal dd1 * 10 + digitVal dd2, tv2) from by
              simp [twoDigitDay, hdd2, hst]] at hdt
            simp only [Option.orElse, Option.some_inj, Prod.mk.injEq] at hdt
            obtain ⟨sp2, rest1, hsp2ne, hsp2a, hr3, ht8⟩ := spacesThenTime_some r3 tv2 hst
            obtain ⟨t1, t2, t3, t4, t5, t6, trest, hshape, e1, e2, e3, e4, e5, e6⟩ :=
              time8_some rest1 tv2 ht8
            refine ⟨m1, m2, m3, r0.takeWhile isJsSpace, [dd1, dd2], sp2,
              t1, t2, t3, t4, t5, t6, trest, ?_, hmon.symm, hm1, hm2, hm3, hsp1, hsp1a,
              by simp, ?_, hsp2ne, hsp2a, e1, e2, e3, e4, e5, e6⟩
            · conv_lhs => rw [hr0, hdw, hr3, hshape]
              simp [List.append_assoc, List.cons_append]
            · intro c hc
              simp only [List.mem_cons, List.not_mem_nil, or_false] at hc
              rcases hc with rfl | rfl
              · exact hdd1
              · exact hdd2
        · rw [show twoDigitDay dd1 (dd2 :: r3) = none from by
            simp [twoDigitDay, hdd2]] at hdt
          simp only [Option.orElse] at hdt
          rw [Option.map_eq_some'] at hdt
          obtain ⟨tval2, hst, heq2⟩ := hdt
          obtain ⟨sp2, rest1, hsp2ne, hsp2a, hr3, ht8⟩ :=
            spacesThenTime_some (dd2 :: r3) tval2 hst
          obtain ⟨t1, t2, t3, t4, t5, t6, trest, hshape, e1, e2, e3, e4, e5, e6⟩ :=
            time8_some rest1 tval2 ht8
          refine ⟨m1, m2, m3, r0.takeWhile isJsSpace, [dd1], sp2,
            t1, t2, t3, t4, t5, t6, trest, ?_, hmon.symm, hm1, hm2, hm3, hsp1, hsp1a,
            by simp, ?_, hsp2ne, hsp2a, e1, e2, e3, e4, e5, e6⟩
          · conv_lhs => rw [hr0, hdw, hr3, hshape]
            simp [List.append_assoc, List.cons_append]
          · intro c hc
            simp only [List.mem_cons, List.not_mem_nil, or_false] at hc
            rcases hc with rfl
            exact hdd1

theorem monthLookup_isSome_of_mem (s : String)
    (h : s ∈ (["Jan", "Feb", "Mar", "Apr", "May", "Jun", "Jul", "Aug", "Sep",
      "Oct", "Nov", "Dec"] : List String)) : ∃ mi, monthLookup s = some mi := by
  simp only [List.mem_cons, List.not_mem_nil, or_false] at h
  rcases h with rfl | rfl | rfl | rfl | rfl | rfl | rfl | rfl | rfl | rfl | rfl | rfl
  · exact ⟨0, by decide⟩
  · exact ⟨1, by decide⟩
  · exact ⟨2, by decide⟩
  · exact ⟨3, by decide⟩
  · exact ⟨4, by decide⟩
  · exact ⟨5, by decide⟩
  · exact ⟨6, by decide⟩
  · exact ⟨7, by decide⟩
  · exact ⟨8, by decide⟩
  · exact ⟨9, by decide⟩
  · exact ⟨10, by decide⟩
  · exact ⟨11, by decide⟩

theorem monthLookup_mem (s : String) (mi : Nat) (h : monthLookup s = some mi) :
    s ∈ (["Jan", "Feb", "Mar", "Apr", "May", "Jun", "Jul", "Aug", "Sep",
      "Oct", "Nov", "Dec"] : List String) := by
  by_contra hns
  simp only [List.mem_cons, List.not_mem_nil, or_false, not_or] at hns
  obtain ⟨n1, n2, n3, n4, n5, n6, n7, n8, n9, n10, n11, n12⟩ := hns
  unfold monthLookup at h
  rw [if_neg n1, if_neg n2, if_neg n3, if_neg n4, if_neg n5, if_neg n6, if_neg n7,
    if_neg n8, if_neg n9, if_neg n10, if_neg n11, if_neg n12] at h
  exact Option.noConfusion h

/-- C8: timestamp extraction yields the parse-error outcome (null) if
and only if the line does not start with a recognizable
`MMM DD HH:MM:SS` prefix with one of the twelve recognized month
abbreviations; every non-empty line of a submission still produces
exactly one LogEntry; and a line with a parse-error outcome gets the
current wall-clock time as its `log_timestamp`. -/
theorem parse_error_iff_and_fallback (tz now : Int) :
    (∀ (line : String) (hint : Nat),
      getTimestampFromLog tz now line hint = none ↔ ¬ RecognizedTimestampLine line) ∧
    (∀ dev content : String,
      (processedEntries tz now dev content).length = (logLines content).length) ∧
    (∀ (dev content : String) (i : Nat), i < (logLines content).length →
      getTimestampFromLog tz now ((logLines content).getD i "") 0 = none →
      ((processLines tz now dev (logLines content)).getD i dummyOut).entry.log_timestamp
        = now) := by
  refine ⟨?_, ?_, ?_⟩
  · intro line hint
    constructor
    · intro hn hrec
      obtain ⟨m1, m2, m3, sp1, day, sp2, h1, h2, mi1, mi2, s1, s2, rest, hdata,
        hA1, hA2, hA3, hsp1, hsp1a, hdl, hdd, hsp2, hsp2a, e1, e2, e3, e4, e5, e6,
        hmem⟩ := hrec
      obtain ⟨dayv, hm⟩ := matchWith_of_shape isAsciiLetter m1 m2 m3 sp1 day sp2
        h1 h2 mi1 mi2 s1 s2 rest hA1 hA2 hA3 hsp1 hsp1a hdl hdd hsp2 hsp2a
        e1 e2 e3 e4 e5 e6
      have hm2 : matchWith isAsciiLetter line.data =
          some ((⟨[m1, m2, m3]⟩ : String), dayv, (digitVal h1 * 10 + digitVal h2,
            digitVal mi1 * 10 + digitVal mi2, digitVal s1 * 10 + digitVal s2)) := by
        rw [hdata]
        exact hm
      obtain ⟨mi, hmon⟩ := monthLookup_isSome_of_mem _ hmem
      simp [getTimestampFromLog, hm2, hmon] at hn
    · intro hnr
      cases hm : matchWith isAsciiLetter line.data with
      | none => simp [getTimestampFromLog, hm]
      | some r =>
        obtain ⟨mon, dayv, tval⟩ := r
        cases hmon : monthLookup mon with
        | none => simp [getTimestampFromLog, hm, hmon]
        | some mi =>
          exfalso
          apply hnr
          obtain ⟨m1, m2, m3, sp1, day, sp2, h1, h2, mi1, mi2, s1, s2, rest,
            hdata, hmoneq, hA1, hA2, hA3, hsp1, hsp1a, hdl, hdd, hsp2, hsp2a,
            e1, e2, e3, e4, e5, e6⟩ := matchWith_some isAsciiLetter line.data mon dayv tval hm
          refine ⟨m1, m2, m3, sp1, day, sp2, h1, h2, mi1, mi2, s1, s2, rest, hdata,
            hA1, hA2, hA3, hsp1, hsp1a, hdl, hdd, hsp2, hsp2a, e1, e2, e3, e4, e5, e6, ?_⟩
          rw [← hmoneq]
          exact monthLookup_mem mon mi hmon
  · intro dev content
    simp only [processedEntries, processLines, List.length_map, procLines_length]
  · intro dev content i hi hp
    have hkey : lineSecondKey tz now ((logLines content).getD i "") = none := by
      unfold lineSecondKey
      rw [hp]
      rfl
    rw [processLines, procLines_getD_failed tz now dev (logLines content) [] i hi hkey]

theorem parse_error_iff_and_fallback_witness :
    0 < (logLines "garbage\nSep 04 12:53:01 a").length ∧
    getTimestampFromLog 0 1700000000000
        ((logLines "garbage\nSep 04 12:53:01 a").getD 0 "") 0 = none ∧
    ((processLines 0 1700000000000 "d1"
        (logLines "garbage\nSep 04 12:53:01 a")).getD 0 dummyOut).entry.log_timestamp
      = 1700000000000 :=
  ⟨by decide, by decide,
    (parse_error_iff_and_fallback 0 1700000000000).2.2 "d1" "garbage\nSep 04 12:53:01 a" 0
      (by decide) (by decide)⟩

end HopeLog
